import Mathlib

/-!
Verification of the PowerAuth mobile SDK core against its specification.

The development shallowly embeds the C++/Objective-C sources:
`src/PowerAuth/PublicTypes.cpp` (HTTP request data validation, authorization
header assembly, activation status), the ECIES engine exercised by
`src/PowerAuthTests/pa2ECIESTests.cpp`, and the token store protocol from
`proj-xcode/Classes/sdk/PowerAuthToken.h`. Bytes are modelled as `Nat`
(values < 256 where it matters), byte buffers as `List Nat`, strings as
`String`.
-/

namespace PowerAuth

/-- Error codes of the core, from `PA2CoreErrorCode` in `PA2Types.h`:
Ok = 0, Encryption = 1, WrongState = 2, WrongParam = 3. -/
inductive ErrorCode where
  | Ok
  | Encryption
  | WrongState
  | WrongParam
deriving DecidableEq, Repr

/-- `HTTPRequestData` from `PublicTypes.cpp` / `PA2HTTPRequestData`:
body blob, HTTP method, relative URI, optional offline nonce
(empty string models the absent nonce, as in the C++ `std::string`). -/
structure HTTPRequestData where
  body : List Nat
  method : String
  uri : String
  offlineNonce : String
deriving DecidableEq, Repr

/-- `HTTPRequestData::hasValidData` from `PublicTypes.cpp` lines 55-68:
rejects empty method or uri, then whitelists the method, then requires a
present offline nonce to have size exactly 24. -/
def HTTPRequestData.hasValidData (r : HTTPRequestData) : Bool :=
  if r.method.isEmpty || r.uri.isEmpty then
    false
  else if !(r.method = "GET" || r.method = "POST" || r.method = "HEAD" ||
            r.method = "PUT" || r.method = "DELETE") then
    false
  else if !r.offlineNonce.isEmpty && r.offlineNonce.length ≠ 24 then
    false
  else
    true

/-- `HTTPRequestData::isOfflineRequest` from `PublicTypes.cpp` lines 70-73. -/
def HTTPRequestData.isOfflineRequest (r : HTTPRequestData) : Bool :=
  !r.offlineNonce.isEmpty

/-- `HTTPRequestDataSignature` from `PublicTypes.h` / `PA2Types.h`: the six
string fields produced by the signing operation. -/
structure HTTPRequestDataSignature where
  version : String
  activationId : String
  applicationKey : String
  nonce : String
  factor : String
  signature : String
deriving DecidableEq, Repr

/-- Modelled from the spec: the literal header fragments from
`protocol/Constants.h` (not in the provided sources). The spec gives the
fixed template
`PowerAuth pa_version="...", pa_activation_id="...", pa_application_key="...",
pa_nonce="...", pa_signature_type="...", pa_signature="..."`. -/
def PA_AUTH_FRAGMENT_BEGIN_VERSION : String := "PowerAuth pa_version=\""

/-- Modelled from the spec: fragment between version and activation id. -/
def PA_AUTH_FRAGMENT_ACTIVATION_ID : String := "\", pa_activation_id=\""

/-- Modelled from the spec: fragment between activation id and app key. -/
def PA_AUTH_FRAGMENT_APPLICATION_KEY : String := "\", pa_application_key=\""

/-- Modelled from the spec: fragment between application key and nonce. -/
def PA_AUTH_FRAGMENT_NONCE : String := "\", pa_nonce=\""

/-- Modelled from the spec: fragment between nonce and signature type. -/
def PA_AUTH_FRAGMENT_SIGNATURE_TYPE : String := "\", pa_signature_type=\""

/-- Modelled from the spec: fragment between signature type and signature. -/
def PA_AUTH_FRAGMENT_SIGNATURE : String := "\", pa_signature=\""

/-- Modelled from the spec: closing fragment. -/
def PA_AUTH_FRAGMENT_END : String := "\""

/-- `HTTPRequestDataSignature::buildAuthHeaderValue` from `PublicTypes.cpp`
lines 80-103: appends, in this fixed order, begin+version, activationId,
applicationKey, nonce, factor, signature, end, each preceded by its literal
fragment. -/
def HTTPRequestDataSignature.buildAuthHeaderValue
    (s : HTTPRequestDataSignature) : String :=
  PA_AUTH_FRAGMENT_BEGIN_VERSION ++ s.version ++
  PA_AUTH_FRAGMENT_ACTIVATION_ID ++ s.activationId ++
  PA_AUTH_FRAGMENT_APPLICATION_KEY ++ s.applicationKey ++
  PA_AUTH_FRAGMENT_NONCE ++ s.nonce ++
  PA_AUTH_FRAGMENT_SIGNATURE_TYPE ++ s.factor ++
  PA_AUTH_FRAGMENT_SIGNATURE ++ s.signature ++
  PA_AUTH_FRAGMENT_END

/-- Activation states from `PA2ActivationState` in `PA2Types.h`
(Created=1, OTP_Used=2, Active=3, Blocked=4, Removed=5). -/
inductive ActivationState where
  | Created
  | OTP_Used
  | Active
  | Blocked
  | Removed
deriving DecidableEq, Repr

/-- Protocol versions as their numeric values (`PA2ProtocolVersion`:
NA=0, V2=2, V3=3); `ActivationStatus::Version` compares them as integers. -/
def Version_NA : Nat := 0

/-- Protocol version 2. -/
def Version_V2 : Nat := 2

/-- Protocol version 3. -/
def Version_V3 : Nat := 3

/-- Maximum protocol version supported by the SDK: V3 (the headers state the
SDK supports V2 only in limited scope and V3 is current). -/
def Version_MaxSupported : Nat := 3

/-- `ActivationStatus` from `PublicTypes.h` / `PA2ActivationStatus`:
state, protocol versions and failed-attempt counters decoded from the
encrypted status blob. -/
structure ActivationStatus where
  state : ActivationState
  currentVersion : Nat
  upgradeVersion : Nat
  failCount : Nat
  maxFailCount : Nat
deriving DecidableEq, Repr

/-- `ActivationStatus::isProtocolUpgradeAvailable` from `PublicTypes.cpp`
lines 120-128: true when the state is Active, the current version is below
the upgrade version, and the upgrade version is at most MaxSupported. -/
def ActivationStatus.isProtocolUpgradeAvailable (st : ActivationStatus) : Bool :=
  if st.state = ActivationState.Active then
    if st.currentVersion < st.upgradeVersion then
      decide (st.upgradeVersion ≤ Version_MaxSupported)
    else
      false
  else
    false

/-- Modelled from the spec: `PA2ActivationStatus.remainingAttempts`
(the implementation behind the `PA2Types.h` property is not in the provided
sources). Per the header doc and spec section 4.1: contains
`maxFailCount - failCount` (clamped at 0) if state is Active, otherwise 0. -/
def ActivationStatus.remainingAttempts (st : ActivationStatus) : Nat :=
  if st.state = ActivationState.Active then st.maxFailCount - st.failCount
  else 0

/-- Modelled from the spec: the data carried by a valid token
(`PowerAuthToken.h` declares the interface only): symbolic name, server
identifier, and the 16-byte token secret (spec section 4.4). -/
structure TokenData where
  name : String
  identifier : String
  secret : List Nat
deriving DecidableEq, Repr

/-- Modelled from the spec: a `PowerAuthToken` instance; `data = none` models
an instance without valid token data (then `tokenName`/`tokenIdentifier`
are nil). -/
structure PowerAuthToken where
  data : Option TokenData
deriving DecidableEq, Repr

/-- Modelled from the spec: the observable part of a `PowerAuthTokenStore`
used by header generation: whether it can service access tokens. -/
structure TokenStore where
  canRequestForAccessToken : Bool
deriving DecidableEq, Repr

/-- Modelled from the spec: `PowerAuthToken.isValid` — YES iff the instance
contains valid token data. -/
def PowerAuthToken.isValid (t : PowerAuthToken) : Bool :=
  t.data.isSome

/-- Modelled from the spec: `PowerAuthToken.canGenerateHeader` — per the
`PowerAuthToken.h` doc, equivalent to
`token.isValid && token.tokenStore.canRequestForAccessToken`; the token's
store reference is weak, so an already-released store (`none`) cannot
service tokens. -/
def PowerAuthToken.canGenerateHeader (t : PowerAuthToken)
    (store : Option TokenStore) : Bool :=
  t.isValid && (match store with
                | some st => st.canRequestForAccessToken
                | none => false)

/-- Modelled from the spec: the token-based authorization header value
(spec section 4.4), built from the token identifier, the MAC digest and the
caller-visible nonce and timestamp strings. -/
def tokenHeaderValue (identifier digest nonce timestamp : String) : String :=
  "PowerAuth token_id=\"" ++ identifier ++ "\", token_digest=\"" ++ digest ++
  "\", nonce=\"" ++ nonce ++ "\", timestamp=\"" ++ timestamp ++
  "\", version=\"3.1\""

/-- Modelled from the spec: `PowerAuthToken.generateHeader` — returns the
header for a valid token whose store can service access tokens, otherwise
nil. Randomness (nonce), the clock (timestamp) and the MAC of the secret
over `nonce || '&' || timestamp` are supplied by external collaborators,
so they enter as explicit arguments. -/
def PowerAuthToken.generateHeader (t : PowerAuthToken)
    (store : Option TokenStore) (digest nonce timestamp : String) :
    Option String :=
  if t.canGenerateHeader store then
    match t.data with
    | some d => some (tokenHeaderValue d.identifier digest nonce timestamp)
    | none => none
  else
    none

/-- Modelled from the spec: the local token database of a store, a map from
token names to token data (opaque encrypted storage in the real SDK). -/
abbrev TokenDatabase := List (String × TokenData)

/-- Modelled from the spec: `hasLocalTokenWithName` — YES iff the local
database holds a token under the given name. -/
def hasLocalToken (db : TokenDatabase) (name : String) : Bool :=
  (List.any db (fun p => p.1 = name))

/-- Modelled from the spec: `removeLocalTokenWithName` — removes the token
with the given name from the local database only; never touches the server. -/
def removeLocalToken (db : TokenDatabase) (name : String) : TokenDatabase :=
  List.filter (fun p => !(p.1 = name)) db

/-- Modelled from the spec: `removeAccessTokenWithName` — attempts
server-side invalidation first; the network outcome is external, so it
enters as the `serverRemoved` flag reported to the completion block. The
local token data is deleted only when the removal request succeeded. -/
def removeAccessToken (db : TokenDatabase) (name : String)
    (serverRemoved : Bool) : TokenDatabase :=
  if serverRemoved then removeLocalToken db name else db

/-- Fuel-driven modular exponentiation by squaring, `b ^ e % m`. The fuel
bounds the recursion depth; any fuel above `log2 e` gives the true value. -/
def powMod (fuel : Nat) (b e m : Nat) : Nat :=
  match fuel with
  | 0 => 1 % m
  | f + 1 =>
    if e = 0 then 1 % m
    else
      let h := powMod f b (e / 2) m
      if e % 2 = 0 then h * h % m else h * h % m * (b % m) % m

/-- Big-endian interpretation of a byte list as a natural number. -/
def bytesToNat (l : List Nat) : Nat :=
  List.foldl (fun a b => a * 256 + b) 0 l

/-- Big-endian encoding of a natural number into exactly `n` bytes. -/
def natToBytesBE (n : Nat) (x : Nat) : List Nat :=
  match n with
  | 0 => []
  | k + 1 => natToBytesBE k (x / 256) ++ [x % 256]

/-- The NIST P-256 field prime. -/
def p256_p : Nat :=
  0xffffffff00000001000000000000000000000000ffffffffffffffffffffffff

/-- The NIST P-256 curve constant `b` of `y^2 = x^3 - 3x + b`. -/
def p256_b : Nat :=
  0x5ac635d8aa3a93e7b3ebbd55769886bc651d06b0cc53b0f63bce3c3e27d2604b

/-- Right-hand side `x^3 - 3x + b` of the P-256 curve equation, mod p
(written with `+ (p - 3) * x` to stay in `Nat`). -/
def p256_rhs (x : Nat) : Nat :=
  (x * x % p256_p * x + (p256_p - 3) * x + p256_b) % p256_p

/-- Modelled from the spec: import of a compressed P-256 public key as done
by the ECIES engine (OpenSSL-backed `ECC_ImportPublicKey`, not in the
provided sources). A valid key is 33 bytes, tag 0x02/0x03, the x coordinate
below the field prime, and `x^3 - 3x + b` a quadratic residue so that a
matching y exists on the curve; the point at infinity has no such encoding.
Since p = 3 (mod 4) the candidate square root is `rhs ^ ((p+1)/4)`, accepted
only when it squares back to `rhs`; the tag selects the parity of y. -/
def p256_decompress (bytes : List Nat) : Option (Nat × Nat) :=
  match bytes with
  | [] => none
  | tag :: rest =>
    if (tag = 2 ∨ tag = 3) ∧ rest.length = 32 then
      let x := bytesToNat rest
      if x < p256_p then
        let a := p256_rhs x
        let y := powMod 300 a ((p256_p + 1) / 4) p256_p
        if y * y % p256_p = a then
          some (x, if y % 2 = tag % 2 then y else (p256_p - y) % p256_p)
        else none
      else none
    else none

/-- The 33-byte compressed public key from `pa2ECIESTests::testInvalidCurve`:
0x02B70BF043C144935756F8F4578C369CF960EE510A5A0F90E93A373A21F0D1397F. -/
def invalidCurvePoint : List Nat :=
  2 :: natToBytesBE 32
    0xB70BF043C144935756F8F4578C369CF960EE510A5A0F90E93A373A21F0D1397F

/-- The compressed encoding of the P-256 base point (a known valid public
key), used as a concrete sanity input. -/
def p256GenBytes : List Nat :=
  3 :: natToBytesBE 32
    0x6B17D1F2E12C4247F8BCE6E563A440F277037D812DEB33A0F4A13945D898C296

/-- Byte-wise xor of two buffers (truncating to the shorter). -/
def xorBytes (a b : List Nat) : List Nat :=
  List.zipWith (fun x y => x ^^^ y) a b

/-- PKCS#7 padding to 16-byte blocks: append n copies of n where
n = 16 - len mod 16 (always between 1 and 16, so a full block is added to
an already aligned message). -/
def pkcs7pad (m : List Nat) : List Nat :=
  let n := 16 - m.length % 16
  m ++ List.replicate n n

/-- PKCS#7 unpadding: the last byte n must be between 1 and 16, at most the
message length, and the last n bytes must all equal n; then drop them. -/
def pkcs7unpad (m : List Nat) : Option (List Nat) :=
  match m.getLast? with
  | none => none
  | some n =>
    if 1 ≤ n ∧ n ≤ 16 ∧ n ≤ m.length ∧
       List.drop (m.length - n) m = List.replicate n n then
      some (List.take (m.length - n) m)
    else none

/-- Split a buffer into 16-byte chunks; `fuel` bounds the recursion and any
fuel at least the buffer length is exact. -/
def toBlocks (fuel : Nat) (l : List Nat) : List (List Nat) :=
  match fuel, l with
  | 0, _ => []
  | _ + 1, [] => []
  | f + 1, x :: xs => List.take 16 (x :: xs) :: toBlocks f (List.drop 16 (x :: xs))

/-- Split a buffer into 16-byte chunks. -/
def chunk16 (l : List Nat) : List (List Nat) :=
  toBlocks l.length l

/-- CBC mode encryption over a block operation `E`: each plaintext block is
xor-ed with the previous ciphertext block (the IV for the first) before `E`. -/
def cbcEncryptBlocks (E : List Nat → List Nat) (iv : List Nat) :
    List (List Nat) → List (List Nat)
  | [] => []
  | p :: ps => E (xorBytes p iv) :: cbcEncryptBlocks E (E (xorBytes p iv)) ps

/-- CBC mode decryption over a block operation `D`. -/
def cbcDecryptBlocks (D : List Nat → List Nat) (iv : List Nat) :
    List (List Nat) → List (List Nat)
  | [] => []
  | c :: cs => xorBytes (D c) iv :: cbcDecryptBlocks D c cs

/-- Modelled from the spec: the external cryptographic primitives consumed
by the ECIES engine (OpenSSL-backed in the real SDK, not in the provided
sources): the AES-128 block operation and its inverse, the X9.63 KDF
producing the 32-byte envelope from the ECDH shared secret and shared_info1,
HMAC-SHA256, the IV derivation over envelope and nonce, ECDH against a
decompressed point, and the compressed public key of a private scalar. -/
structure ECIESPrims where
  encBlock : List Nat → List Nat → List Nat
  decBlock : List Nat → List Nat → List Nat
  kdf : List Nat → List Nat → List Nat
  hmacSHA256 : List Nat → List Nat → List Nat
  deriveIv : List Nat → List Nat → List Nat
  dh : Nat → Nat × Nat → List Nat
  pubBytes : Nat → List Nat

/-- `ECIESCryptogram` from `PowerAuth/ECIES.h`: ciphertext body, MAC,
ephemeral public key (empty for responses) and nonce. -/
structure ECIESCryptogram where
  body : List Nat
  mac : List Nat
  key : List Nat
  nonce : List Nat
deriving DecidableEq, Repr

/-- Modelled from the spec: the symmetric part of an ECIES operation —
AES-128-CBC over the PKCS#7-padded plaintext, with K_enc the first 16
envelope bytes and the IV derived from envelope and nonce. -/
def eciesEncryptBody (C : ECIESPrims) (envelope nonce plaintext : List Nat) :
    List Nat :=
  let kEnc := List.take 16 envelope
  let iv := C.deriveIv envelope nonce
  List.flatten (cbcEncryptBlocks (C.encBlock kEnc) iv (chunk16 (pkcs7pad plaintext)))

/-- Modelled from the spec: inverse of `eciesEncryptBody`; fails (`none`)
when the padding is malformed. -/
def eciesDecryptBody (C : ECIESPrims) (envelope nonce body : List Nat) :
    Option (List Nat) :=
  let kEnc := List.take 16 envelope
  let iv := C.deriveIv envelope nonce
  pkcs7unpad (List.flatten (cbcDecryptBlocks (C.decBlock kEnc) iv (chunk16 body)))

/-- Modelled from the spec: `ECIESEncryptor::encryptRequest` (implementation
not in the provided sources; behaviour fixed by spec section 4.3 and
`pa2ECIESTests.cpp`). The peer public key is imported first — an invalid
P-256 point fails with `Encryption` and no cryptogram is produced. Otherwise
the envelope is derived from the ECDH shared secret via the KDF with
shared_info1, the body is AES-CBC over the padded plaintext, and the MAC
covers body || shared_info2 || ephemeral key || nonce. The ephemeral scalar
and the nonce come from the external RNG, so they enter as arguments. -/
def encryptRequest (C : ECIESPrims) (peerPub si1 si2 : List Nat) (ePriv : Nat)
    (nonce plaintext : List Nat) : ErrorCode × Option ECIESCryptogram :=
  match p256_decompress peerPub with
  | none => (ErrorCode.Encryption, none)
  | some P =>
    let envelope := C.kdf (C.dh ePriv P) si1
    let kMac := List.drop 16 envelope
    let body := eciesEncryptBody C envelope nonce plaintext
    let ePub := C.pubBytes ePriv
    let mac := C.hmacSHA256 kMac (body ++ si2 ++ ePub ++ nonce)
    (ErrorCode.Ok, some ⟨body, mac, ePub, nonce⟩)

/-- Modelled from the spec: `ECIESDecryptor::decryptRequest` — imports the
ephemeral key from the cryptogram, rebuilds the envelope from its own
private scalar, verifies the MAC over body || shared_info2 || key || nonce,
and decrypts the body; any failure yields `Encryption`. -/
def decryptRequest (C : ECIESPrims) (sPriv : Nat) (si1 si2 : List Nat)
    (crypt : ECIESCryptogram) : ErrorCode × Option (List Nat) :=
  match p256_decompress crypt.key with
  | none => (ErrorCode.Encryption, none)
  | some E =>
    let envelope := C.kdf (C.dh sPriv E) si1
    let kMac := List.drop 16 envelope
    if C.hmacSHA256 kMac (crypt.body ++ si2 ++ crypt.key ++ crypt.nonce) = crypt.mac then
      match eciesDecryptBody C envelope crypt.nonce crypt.body with
      | some m => (ErrorCode.Ok, some m)
      | none => (ErrorCode.Encryption, none)
    else
      (ErrorCode.Encryption, none)

/-- Modelled from the spec: `ECIESDecryptor::encryptResponse` — reuses the
envelope retained from the request (no new ephemeral key, so the cryptogram
key field stays empty); the MAC covers body || shared_info2 || nonce. -/
def encryptResponse (C : ECIESPrims) (envelope si2 nonce plaintext : List Nat) :
    ErrorCode × Option ECIESCryptogram :=
  let kMac := List.drop 16 envelope
  let body := eciesEncryptBody C envelope nonce plaintext
  let mac := C.hmacSHA256 kMac (body ++ si2 ++ nonce)
  (ErrorCode.Ok, some ⟨body, mac, [], nonce⟩)

/-- Modelled from the spec: `ECIESEncryptor::decryptResponse` — verifies the
MAC over body || shared_info2 || nonce against the retained envelope and
decrypts; MAC mismatch or bad padding yields `Encryption`. -/
def decryptResponse (C : ECIESPrims) (envelope si2 : List Nat)
    (crypt : ECIESCryptogram) : ErrorCode × Option (List Nat) :=
  let kMac := List.drop 16 envelope
  if C.hmacSHA256 kMac (crypt.body ++ si2 ++ crypt.nonce) = crypt.mac then
    match eciesDecryptBody C envelope crypt.nonce crypt.body with
    | some m => (ErrorCode.Ok, some m)
    | none => (ErrorCode.Encryption, none)
  else
    (ErrorCode.Encryption, none)

theorem length_xorBytes (a b : List Nat) :
    (xorBytes a b).length = min a.length b.length := by
  simp [xorBytes]

theorem xorBytes_cancel (a b : List Nat) (h : a.length = b.length) :
    xorBytes (xorBytes a b) b = a := by
  induction a generalizing b with
  | nil => cases b <;> simp [xorBytes]
  | cons x xs ih =>
    cases b with
    | nil => simp at h
    | cons y ys =>
      simp only [List.length_cons, Nat.add_right_cancel_iff] at h
      simp only [xorBytes, List.zipWith_cons_cons]
      rw [List.cons_eq_cons]
      exact ⟨Nat.xor_cancel_right y x, ih ys h⟩

theorem pkcs7pad_length (m : List Nat) :
    (pkcs7pad m).length = m.length + (16 - m.length % 16) := by
  simp [pkcs7pad]

theorem pkcs7pad_mod (m : List Nat) : (pkcs7pad m).length % 16 = 0 := by
  rw [pkcs7pad_length]
  omega

theorem pkcs7pad_ge (m : List Nat) : 16 ≤ (pkcs7pad m).length := by
  rw [pkcs7pad_length]
  omega

theorem pkcs7unpad_append (m : List Nat) (n : Nat) (h1 : 1 ≤ n)
    (h16 : n ≤ 16) : pkcs7unpad (m ++ List.replicate n n) = some m := by
  have hlast : (m ++ List.replicate n n).getLast? = some n := by
    obtain ⟨k, hk⟩ : ∃ k, n = k + 1 := ⟨n - 1, by omega⟩
    rw [hk, List.replicate_succ', ← List.append_assoc, List.getLast?_concat]
  have hlen : (m ++ List.replicate n n).length = m.length + n := by simp
  unfold pkcs7unpad
  rw [hlast]
  show (if 1 ≤ n ∧ n ≤ 16 ∧ n ≤ (m ++ List.replicate n n).length ∧
        List.drop ((m ++ List.replicate n n).length - n) (m ++ List.replicate n n)
          = List.replicate n n then
      some (List.take ((m ++ List.replicate n n).length - n) (m ++ List.replicate n n))
    else none) = some m
  rw [hlen, Nat.add_sub_cancel, if_pos]
  · rw [List.take_left]
  · exact ⟨h1, h16, by omega, List.drop_left m _⟩

theorem pkcs7unpad_pad (m : List Nat) : pkcs7unpad (pkcs7pad m) = some m := by
  have hlt : m.length % 16 < 16 := Nat.mod_lt _ (by norm_num)
  unfold pkcs7pad
  exact pkcs7unpad_append m _ (by omega) (by omega)

theorem flatten_toBlocks (fuel : Nat) (l : List Nat) (h : l.length ≤ fuel) :
    (toBlocks fuel l).flatten = l := by
  induction fuel generalizing l with
  | zero =>
    have : l = [] := List.eq_nil_of_length_eq_zero (by omega)
    subst this
    simp [toBlocks]
  | succ f ih =>
    cases l with
    | nil => simp [toBlocks]
    | cons x xs =>
      simp only [toBlocks, List.flatten_cons]
      rw [ih _ (by simp only [List.length_drop, List.length_cons] at *; omega)]
      exact List.take_append_drop 16 (x :: xs)

theorem toBlocks_length16 (fuel : Nat) (l : List Nat) (hd : 16 ∣ l.length)
    (h : l.length ≤ fuel) : ∀ b ∈ toBlocks fuel l, b.length = 16 := by
  induction fuel generalizing l with
  | zero =>
    have : l = [] := List.eq_nil_of_length_eq_zero (by omega)
    subst this
    simp [toBlocks]
  | succ f ih =>
    cases l with
    | nil => simp [toBlocks]
    | cons x xs =>
      intro b hb
      have hge : 16 ≤ (x :: xs).length := by
        rcases hd with ⟨c, hc⟩
        simp only [List.length_cons] at hc ⊢
        omega
      simp only [toBlocks, List.mem_cons] at hb
      rcases hb with rfl | hb
      · rw [List.length_take]
        omega
      · refine ih (List.drop 16 (x :: xs)) ?_ ?_ b hb
        · rw [List.length_drop]
          exact Nat.dvd_sub' hd (by norm_num)
        · rw [List.length_drop]
          simp only [List.length_cons] at h ⊢
          omega

theorem toBlocks_flatten (bs : List (List Nat)) (fuel : Nat)
    (hb : ∀ b ∈ bs, b.length = 16) (h : 16 * bs.length ≤ fuel) :
    toBlocks fuel bs.flatten = bs := by
  induction bs generalizing fuel with
  | nil =>
    cases fuel <;> simp [toBlocks]
  | cons b bs ih =>
    have hblen : b.length = 16 := hb b (by simp)
    cases b with
    | nil => simp at hblen
    | cons y ys =>
      obtain ⟨f, rfl⟩ : ∃ f, fuel = f + 1 := ⟨fuel - 1, by simp at h; omega⟩
      have hcons : (y :: ys) ++ List.flatten bs = y :: (ys ++ List.flatten bs) := rfl
      rw [List.flatten_cons, hcons]
      simp only [toBlocks]
      rw [← hcons, ← hblen, List.take_left, List.drop_left]
      rw [List.cons_eq_cons]
      refine ⟨rfl, ih f (fun q hq => hb q (List.mem_cons_of_mem _ hq)) ?_⟩
      simp only [List.length_cons] at h
      omega

theorem flatten_length16 (bs : List (List Nat)) (h : ∀ b ∈ bs, b.length = 16) :
    bs.flatten.length = 16 * bs.length := by
  induction bs with
  | nil => simp
  | cons b bs ih =>
    simp only [List.flatten_cons, List.length_append, List.length_cons,
      h b (by simp), ih (fun q hq => h q (by simp [hq]))]
    ring

theorem cbcEncryptBlocks_length16 (E : List Nat → List Nat)
    (hE : ∀ b, b.length = 16 → (E b).length = 16)
    (iv : List Nat) (hiv : iv.length = 16) (ps : List (List Nat))
    (hp : ∀ p ∈ ps, p.length = 16) :
    ∀ c ∈ cbcEncryptBlocks E iv ps, c.length = 16 := by
  induction ps generalizing iv with
  | nil => simp [cbcEncryptBlocks]
  | cons p ps ih =>
    intro c hc
    have hp0 : p.length = 16 := hp p (by simp)
    have hxl : (xorBytes p iv).length = 16 := by
      rw [length_xorBytes, hp0, hiv]
      exact Nat.min_self 16
    have hc0 : (E (xorBytes p iv)).length = 16 := hE _ hxl
    simp only [cbcEncryptBlocks, List.mem_cons] at hc
    rcases hc with rfl | hc
    · exact hc0
    · exact ih _ hc0 (fun q hq => hp q (by simp [hq])) c hc

theorem cbcDecrypt_cbcEncrypt (E D : List Nat → List Nat)
    (hDE : ∀ b, b.length = 16 → D (E b) = b)
    (hE : ∀ b, b.length = 16 → (E b).length = 16)
    (iv : List Nat) (hiv : iv.length = 16)
    (ps : List (List Nat)) (hp : ∀ p ∈ ps, p.length = 16) :
    cbcDecryptBlocks D iv (cbcEncryptBlocks E iv ps) = ps := by
  induction ps generalizing iv with
  | nil => simp [cbcEncryptBlocks, cbcDecryptBlocks]
  | cons p ps ih =>
    have hp0 : p.length = 16 := hp p (by simp)
    have hxl : (xorBytes p iv).length = 16 := by
      rw [length_xorBytes, hp0, hiv]
      exact Nat.min_self 16
    simp only [cbcEncryptBlocks, cbcDecryptBlocks]
    rw [List.cons_eq_cons]
    constructor
    · rw [hDE _ hxl]
      exact xorBytes_cancel p iv (by rw [hp0, hiv])
    · exact ih _ (hE _ hxl) (fun q hq => hp q (by simp [hq]))

theorem eciesDecryptBody_encryptBody (C : ECIESPrims)
    (envelope nonce m : List Nat)
    (hDE : ∀ k b, b.length = 16 → C.decBlock k (C.encBlock k b) = b)
    (hE : ∀ k b, b.length = 16 → (C.encBlock k b).length = 16)
    (hiv : ∀ e n, (C.deriveIv e n).length = 16) :
    eciesDecryptBody C envelope nonce (eciesEncryptBody C envelope nonce m)
      = some m := by
  have hivl : (C.deriveIv envelope nonce).length = 16 := hiv _ _
  have hpad : 16 ∣ (pkcs7pad m).length := Nat.dvd_of_mod_eq_zero (pkcs7pad_mod m)
  have hblocks : ∀ b ∈ chunk16 (pkcs7pad m), b.length = 16 :=
    toBlocks_length16 _ _ hpad (le_refl _)
  have hcs : ∀ c ∈ cbcEncryptBlocks (C.encBlock (List.take 16 envelope))
      (C.deriveIv envelope nonce) (chunk16 (pkcs7pad m)), c.length = 16 :=
    cbcEncryptBlocks_length16 _ (hE _) _ hivl _ hblocks
  simp only [eciesEncryptBody, eciesDecryptBody]
  rw [chunk16, flatten_length16 _ hcs, toBlocks_flatten _ _ hcs (le_refl _)]
  rw [cbcDecrypt_cbcEncrypt _ _ (hDE _) (hE _) _ hivl _ hblocks]
  rw [chunk16, flatten_toBlocks _ _ (le_refl _)]
  exact pkcs7unpad_pad m

theorem hasValidData_iff (r : HTTPRequestData) :
    r.hasValidData = true ↔
      ((r.method = "GET" ∨ r.method = "POST" ∨ r.method = "HEAD" ∨
        r.method = "PUT" ∨ r.method = "DELETE") ∧ r.uri ≠ "" ∧
       (r.offlineNonce = "" ∨ r.offlineNonce.length = 24)) := by
  unfold HTTPRequestData.hasValidData
  split_ifs with h1 h2 h3
  · simp only [Bool.false_eq_true, false_iff]
    rintro ⟨hm, hu, -⟩
    rw [Bool.or_eq_true, String.isEmpty_iff, String.isEmpty_iff] at h1
    rcases h1 with h1 | h1
    · rcases hm with h | h | h | h | h <;> simp [h] at h1
    · exact hu h1
  · simp only [Bool.false_eq_true, false_iff]
    rintro ⟨hm, -, -⟩
    simp only [Bool.not_eq_true', Bool.or_eq_false_iff, decide_eq_false_iff_not] at h2
    tauto
  · simp only [Bool.false_eq_true, false_iff]
    rintro ⟨-, -, hn⟩
    simp only [Bool.and_eq_true, Bool.not_eq_true', String.isEmpty_iff,
      decide_eq_true_eq] at h3
    rcases hn with hn | hn
    · rw [hn] at h3
      exact absurd h3.1 (by decide)
    · exact absurd hn h3.2
  · simp only [true_iff]
    rw [Bool.or_eq_true, String.isEmpty_iff, String.isEmpty_iff] at h1
    push_neg at h1
    simp only [Bool.not_eq_true', Bool.or_eq_false_iff, decide_eq_false_iff_not] at h2
    refine ⟨?_, h1.2, ?_⟩
    · tauto
    · by_cases he : r.offlineNonce = ""
      · exact Or.inl he
      · right
        by_contra hne
        exact h3 (by simp [Bool.eq_false_iff, String.isEmpty_iff, he, hne])

/-- Claim C3: `HTTPRequestData::hasValidData` returns true exactly when the
method is one of GET, POST, HEAD, PUT, DELETE, the uri is non-empty, and the
offline nonce is absent or exactly 24 characters; in particular a GET of
`/pa/activation/status` is valid while a PATCH, an empty uri, and a
23-character offline nonce are rejected. -/
theorem c3_hasValidData_spec :
    (∀ r : HTTPRequestData, r.hasValidData = true ↔
      ((r.method = "GET" ∨ r.method = "POST" ∨ r.method = "HEAD" ∨
        r.method = "PUT" ∨ r.method = "DELETE") ∧ r.uri ≠ "" ∧
       (r.offlineNonce = "" ∨ r.offlineNonce.length = 24))) ∧
    HTTPRequestData.hasValidData ⟨[], "GET", "/pa/activation/status", ""⟩ = true ∧
    HTTPRequestData.hasValidData ⟨[], "PATCH", "/x", ""⟩ = false ∧
    HTTPRequestData.hasValidData ⟨[], "POST", "", ""⟩ = false ∧
    HTTPRequestData.hasValidData
      ⟨[], "GET", "/x", "AAAAAAAAAAAAAAAAAAAAAAA"⟩ = false :=
  ⟨hasValidData_iff, by decide, by decide, by decide, by decide⟩

/-- Claim C10: `HTTPRequestData::hasValidData` checks only the length of a
present offline nonce, not its content: any whitelisted method, non-empty
uri and 24-character nonce pass validation, whatever the nonce characters
are (no Base64 well-formedness is enforced). -/
theorem c10_hasValidData_nonce_length_only (r : HTTPRequestData)
    (hm : r.method = "GET" ∨ r.method = "POST" ∨ r.method = "HEAD" ∨
          r.method = "PUT" ∨ r.method = "DELETE")
    (hu : r.uri ≠ "") (hn : r.offlineNonce.length = 24) :
    r.hasValidData = true :=
  (hasValidData_iff r).mpr ⟨hm, hu, Or.inr hn⟩

/-- Witness for C10 at a concrete input: a 24-character offline nonce made
of question marks — not valid Base64 — still passes validation. -/
theorem c10_hasValidData_nonce_length_only_witness :
    HTTPRequestData.hasValidData
      ⟨[], "GET", "/x", "????????????????????????"⟩ = true :=
  c10_hasValidData_nonce_length_only
    ⟨[], "GET", "/x", "????????????????????????"⟩
    (Or.inl rfl) (by decide) (by decide)

/-- Claim C4: `ActivationStatus::isProtocolUpgradeAvailable` is true exactly
when the state is Active, the current protocol version is strictly below the
upgrade version, and the upgrade version is at most MaxSupported; every
non-Active state yields false regardless of the version fields. -/
theorem c4_isProtocolUpgradeAvailable_spec :
    (∀ st : ActivationStatus, st.isProtocolUpgradeAvailable = true ↔
      (st.state = ActivationState.Active ∧
       st.currentVersion < st.upgradeVersion ∧
       st.upgradeVersion ≤ Version_MaxSupported)) ∧
    (∀ cv uv fc mc : Nat,
      (ActivationStatus.mk ActivationState.Created cv uv fc mc).isProtocolUpgradeAvailable = false ∧
      (ActivationStatus.mk ActivationState.OTP_Used cv uv fc mc).isProtocolUpgradeAvailable = false ∧
      (ActivationStatus.mk ActivationState.Blocked cv uv fc mc).isProtocolUpgradeAvailable = false ∧
      (ActivationStatus.mk ActivationState.Removed cv uv fc mc).isProtocolUpgradeAvailable = false) := by
  constructor
  · intro st
    unfold ActivationStatus.isProtocolUpgradeAvailable
    split_ifs with h1 h2
    · simp [h1, h2]
    · simp [h1, h2]
    · simp [h1]
  · intro cv uv fc mc
    exact ⟨rfl, rfl, rfl, rfl⟩

/-- Claim C7: in every decoded activation status, remainingAttempts equals
maxFailCount minus failCount (clamped at zero) when the state is Active, and
equals 0 in every other state. -/
theorem c7_remainingAttempts_spec :
    (∀ cv uv fc mc : Nat,
      (ActivationStatus.mk ActivationState.Active cv uv fc mc).remainingAttempts = mc - fc) ∧
    (∀ cv uv fc mc : Nat,
      (ActivationStatus.mk ActivationState.Created cv uv fc mc).remainingAttempts = 0 ∧
      (ActivationStatus.mk ActivationState.OTP_Used cv uv fc mc).remainingAttempts = 0 ∧
      (ActivationStatus.mk ActivationState.Blocked cv uv fc mc).remainingAttempts = 0 ∧
      (ActivationStatus.mk ActivationState.Removed cv uv fc mc).remainingAttempts = 0) :=
  ⟨fun _ _ _ _ => rfl, fun _ _ _ _ => ⟨rfl, rfl, rfl, rfl⟩⟩

/-- Claim C6: `buildAuthHeaderValue` always produces the fixed literal
template with the six field values spliced in at fixed positions, so any two
header strings differ only in the version, activationId, applicationKey,
nonce, factor and signature values and the field order never varies. -/
theorem c6_buildAuthHeaderValue_template (s : HTTPRequestDataSignature) :
    s.buildAuthHeaderValue =
      "PowerAuth pa_version=\"" ++ s.version ++
      "\", pa_activation_id=\"" ++ s.activationId ++
      "\", pa_application_key=\"" ++ s.applicationKey ++
      "\", pa_nonce=\"" ++ s.nonce ++
      "\", pa_signature_type=\"" ++ s.factor ++
      "\", pa_signature=\"" ++ s.signature ++ "\"" := rfl

theorem hasLocalToken_removeLocal (db : TokenDatabase) (name : String) :
    hasLocalToken (removeLocalToken db name) name = false := by
  simp [hasLocalToken, removeLocalToken]

/-- Claim C8: `canGenerateHeader` is true exactly when the token is valid and
its store reports `canRequestForAccessToken`, and `generateHeader` returns
nil whenever the token is invalid or the store cannot service access tokens
(including a released weak store reference). -/
theorem c8_token_header_spec :
    (∀ (t : PowerAuthToken) (st : TokenStore),
      t.canGenerateHeader (some st) = (t.isValid && st.canRequestForAccessToken)) ∧
    (∀ (t : PowerAuthToken) (store : Option TokenStore) (d n ts : String),
      t.isValid = false → t.generateHeader store d n ts = none) ∧
    (∀ (t : PowerAuthToken) (st : TokenStore) (d n ts : String),
      st.canRequestForAccessToken = false →
        t.generateHeader (some st) d n ts = none) := by
  refine ⟨fun t st => rfl, ?_, ?_⟩
  · intro t store d n ts h
    have hc : t.canGenerateHeader store = false := by
      simp [PowerAuthToken.canGenerateHeader, h]
    simp [PowerAuthToken.generateHeader, hc]
  · intro t st d n ts h
    have hc : t.canGenerateHeader (some st) = false := by
      simp [PowerAuthToken.canGenerateHeader, h]
    simp [PowerAuthToken.generateHeader, hc]

/-- Witness for C8 at concrete inputs: an invalid token cannot produce a
header even with a willing store, and a valid token cannot when its store
refuses access tokens. -/
theorem c8_token_header_spec_witness :
    PowerAuthToken.generateHeader ⟨none⟩ (some ⟨true⟩) "d" "n" "t" = none ∧
    PowerAuthToken.generateHeader ⟨some ⟨"nm", "id", []⟩⟩ (some ⟨false⟩)
      "d" "n" "t" = none :=
  ⟨c8_token_header_spec.2.1 ⟨none⟩ (some ⟨true⟩) "d" "n" "t" rfl,
   c8_token_header_spec.2.2 ⟨some ⟨"nm", "id", []⟩⟩ ⟨false⟩ "d" "n" "t" rfl⟩

/-- Claim C9: `removeAccessTokenWithName` deletes the local token data only
when the server-side invalidation succeeded; on failure the local database
is unchanged; `removeLocalTokenWithName` deletes locally without any server
confirmation. -/
theorem c9_removeAccessToken_spec (db : TokenDatabase) (name : String)
    (serverRemoved : Bool) :
    (serverRemoved = false → removeAccessToken db name serverRemoved = db) ∧
    (serverRemoved = true →
      hasLocalToken (removeAccessToken db name serverRemoved) name = false) ∧
    hasLocalToken (removeLocalToken db name) name = false := by
  refine ⟨?_, ?_, hasLocalToken_removeLocal db name⟩
  · intro h
    simp [removeAccessToken, h]
  · intro h
    rw [removeAccessToken, if_pos h]
    exact hasLocalToken_removeLocal db name

/-- Witness for C9 at a concrete database holding one token: a failed server
removal leaves the database unchanged, a successful one deletes the entry,
and the local-only removal deletes it unconditionally. -/
theorem c9_removeAccessToken_spec_witness :
    (false = false →
      removeAccessToken [("a", ⟨"a", "i", []⟩)] "a" false = [("a", ⟨"a", "i", []⟩)]) ∧
    (false = true →
      hasLocalToken (removeAccessToken [("a", ⟨"a", "i", []⟩)] "a" false) "a" = false) ∧
    hasLocalToken (removeLocalToken [("a", ⟨"a", "i", []⟩)] "a") "a" = false :=
  c9_removeAccessToken_spec [("a", ⟨"a", "i", []⟩)] "a" false

/-- A concrete primitive instance used to evaluate the engine at closed
inputs: identity block operation (its own inverse), constant KDF, MAC and
IV of the correct sizes, degenerate ECDH, and the P-256 base point as the
public key encoding. It satisfies every hypothesis the engine theorems
place on the external primitives. -/
def toyPrims : ECIESPrims where
  encBlock := fun _ b => b
  decBlock := fun _ b => b
  kdf := fun _ _ => List.replicate 32 0
  hmacSHA256 := fun _ _ => List.replicate 32 1
  deriveIv := fun _ _ => List.replicate 16 0
  dh := fun _ _ => []
  pubBytes := fun _ => p256GenBytes

/-- Claim C2: building an ECIES encryptor from a public key that is not a
valid P-256 point and calling encryptRequest fails with the Encryption error
code and produces no cryptogram, for every such key and every input. -/
theorem c2_encryptRequest_invalid_curve (C : ECIESPrims)
    (peerPub si1 si2 : List Nat) (ePriv : Nat) (nonce plaintext : List Nat)
    (h : p256_decompress peerPub = none) :
    encryptRequest C peerPub si1 si2 ePriv nonce plaintext
      = (ErrorCode.Encryption, none) := by
  unfold encryptRequest
  rw [h]

set_option maxRecDepth 1000000 in
/-- Witness for C2 at the concrete 33-byte compressed key
0x02B70BF043C144935756F8F4578C369CF960EE510A5A0F90E93A373A21F0D1397F from
`pa2ECIESTests::testInvalidCurve`: its x-coordinate puts `x^3 - 3x + b`
outside the quadratic residues of the P-256 field, so no point exists and
encryption fails. -/
theorem c2_encryptRequest_invalid_curve_witness :
    encryptRequest toyPrims invalidCurvePoint [] [] 1 []
      [115, 104, 111, 117, 108, 100] = (ErrorCode.Encryption, none) :=
  c2_encryptRequest_invalid_curve toyPrims invalidCurvePoint [] [] 1 []
    [115, 104, 111, 117, 108, 100] (by decide)

/-- Claim C1: for every plaintext and every pair of shared-info strings, an
ECIES encryptor built from a valid P-256 public key round-trips with the
matching decryptor in both directions — the encrypted request decrypts to Ok
with exactly the original plaintext, and the response encrypted by the
decryptor side (under the retained envelope) decrypts on the encryptor side
to Ok with the original response plaintext — for any plaintexts including
the empty one. Hypotheses state the contracts of the external primitives:
the block cipher inverts on 16-byte blocks and preserves their length, IV
derivation yields 16 bytes, the two key pairs decompress, and ECDH agrees
on the two sides. -/
theorem c1_ecies_roundtrip (C : ECIESPrims) (ePriv sPriv : Nat)
    (Pe Ps : Nat × Nat)
    (si1 si2 reqNonce respNonce plaintext respPlain : List Nat)
    (hDE : ∀ k b, b.length = 16 → C.decBlock k (C.encBlock k b) = b)
    (hE : ∀ k b, b.length = 16 → (C.encBlock k b).length = 16)
    (hiv : ∀ e n, (C.deriveIv e n).length = 16)
    (hPe : p256_decompress (C.pubBytes ePriv) = some Pe)
    (hPs : p256_decompress (C.pubBytes sPriv) = some Ps)
    (hdh : C.dh ePriv Ps = C.dh sPriv Pe) :
    ∃ req resp : ECIESCryptogram,
      encryptRequest C (C.pubBytes sPriv) si1 si2 ePriv reqNonce plaintext
        = (ErrorCode.Ok, some req) ∧
      decryptRequest C sPriv si1 si2 req = (ErrorCode.Ok, some plaintext) ∧
      encryptResponse C (C.kdf (C.dh sPriv Pe) si1) si2 respNonce respPlain
        = (ErrorCode.Ok, some resp) ∧
      decryptResponse C (C.kdf (C.dh ePriv Ps) si1) si2 resp
        = (ErrorCode.Ok, some respPlain) := by
  refine ⟨⟨eciesEncryptBody C (C.kdf (C.dh ePriv Ps) si1) reqNonce plaintext,
           C.hmacSHA256 (List.drop 16 (C.kdf (C.dh ePriv Ps) si1))
             (eciesEncryptBody C (C.kdf (C.dh ePriv Ps) si1) reqNonce plaintext
               ++ si2 ++ C.pubBytes ePriv ++ reqNonce),
           C.pubBytes ePriv, reqNonce⟩,
          ⟨eciesEncryptBody C (C.kdf (C.dh sPriv Pe) si1) respNonce respPlain,
           C.hmacSHA256 (List.drop 16 (C.kdf (C.dh sPriv Pe) si1))
             (eciesEncryptBody C (C.kdf (C.dh sPriv Pe) si1) respNonce respPlain
               ++ si2 ++ respNonce),
           [], respNonce⟩, ?_, ?_, ?_, ?_⟩
  · unfold encryptRequest
    rw [hPs]
  · rw [hdh]
    unfold decryptRequest
    simp only [hPe]
    rw [if_pos trivial]
    rw [eciesDecryptBody_encryptBody C _ _ plaintext hDE hE hiv]
  · rfl
  · rw [hdh]
    unfold decryptResponse
    rw [if_pos rfl]
    rw [eciesDecryptBody_encryptBody C _ _ respPlain hDE hE hiv]

/-- x-coordinate of the P-256 base point. -/
def p256Gx : Nat :=
  0x6B17D1F2E12C4247F8BCE6E563A440F277037D812DEB33A0F4A13945D898C296

/-- y-coordinate of the P-256 base point (odd, matching the 0x03 tag of
`p256GenBytes`). -/
def p256Gy : Nat :=
  0x4FE342E2FE1A7F9B8EE7EB4A7C0F9E162BCE33576B315ECECBB6406837BF51F5

set_option maxRecDepth 1000000 in
/-- Witness for C1 at closed inputs: the toy primitives, private scalars 1
and 2, the P-256 base point as both compressed public keys, and empty
shared infos, nonces and plaintexts; every hypothesis is discharged
concretely (the key decompressions evaluate on the real P-256 field). -/
theorem c1_ecies_roundtrip_witness :
    ∃ req resp : ECIESCryptogram,
      encryptRequest toyPrims (toyPrims.pubBytes 2) [] [] 1 [] []
        = (ErrorCode.Ok, some req) ∧
      decryptRequest toyPrims 2 [] [] req = (ErrorCode.Ok, some []) ∧
      encryptResponse toyPrims (toyPrims.kdf (toyPrims.dh 2 (p256Gx, p256Gy)) [])
        [] [] [] = (ErrorCode.Ok, some resp) ∧
      decryptResponse toyPrims (toyPrims.kdf (toyPrims.dh 1 (p256Gx, p256Gy)) [])
        [] resp = (ErrorCode.Ok, some []) :=
  c1_ecies_roundtrip toyPrims 1 2 (p256Gx, p256Gy) (p256Gx, p256Gy)
    [] [] [] [] [] []
    (fun _ _ _ => rfl) (fun _ _ h => h) (fun _ _ => rfl)
    (by decide) (by decide) rfl

theorem ne_nil_of_length_eq (l : List Nat) (n : Nat) (h : l.length = n)
    (hn : n ≠ 0) : l ≠ [] := by
  intro h0
  rw [h0] at h
  exact hn (by simpa using h.symm)

theorem length_cbcEncryptBlocks (E : List Nat → List Nat) (iv : List Nat)
    (ps : List (List Nat)) : (cbcEncryptBlocks E iv ps).length = ps.length := by
  induction ps generalizing iv with
  | nil => rfl
  | cons p ps ih => simp [cbcEncryptBlocks, ih]

theorem chunk16_ne_nil (l : List Nat) (h : l ≠ []) : chunk16 l ≠ [] := by
  cases l with
  | nil => exact absurd rfl h
  | cons x xs => simp [chunk16, toBlocks]

theorem eciesEncryptBody_ne_nil (C : ECIESPrims) (envelope nonce m : List Nat)
    (hE : ∀ k b, b.length = 16 → (C.encBlock k b).length = 16)
    (hiv : ∀ e n, (C.deriveIv e n).length = 16) :
    eciesEncryptBody C envelope nonce m ≠ [] := by
  intro hbad
  have hpadne : pkcs7pad m ≠ [] := by
    have hge := pkcs7pad_ge m
    intro h0
    rw [h0] at hge
    simp at hge
  have hchunk : chunk16 (pkcs7pad m) ≠ [] := chunk16_ne_nil _ hpadne
  have hpad : 16 ∣ (pkcs7pad m).length := Nat.dvd_of_mod_eq_zero (pkcs7pad_mod m)
  have hblocks : ∀ b ∈ chunk16 (pkcs7pad m), b.length = 16 :=
    toBlocks_length16 _ _ hpad (le_refl _)
  have hcs : ∀ c ∈ cbcEncryptBlocks (C.encBlock (List.take 16 envelope))
      (C.deriveIv envelope nonce) (chunk16 (pkcs7pad m)), c.length = 16 :=
    cbcEncryptBlocks_length16 _ (hE _) _ (hiv envelope nonce) _ hblocks
  have hl := flatten_length16 _ hcs
  simp only [eciesEncryptBody] at hbad
  rw [hbad] at hl
  rw [length_cbcEncryptBlocks] at hl
  simp only [List.length_nil] at hl
  exact hchunk (List.eq_nil_of_length_eq_zero (by omega))

/-- Claim C5: in every successful ECIES exchange the request cryptogram has a
non-empty body (PKCS#7 always adds at least one padded block, so this holds
even for the empty plaintext), a non-empty MAC (HMAC-SHA256 yields 32
bytes) and a non-empty key (a 33-byte compressed ephemeral public key),
while the response cryptogram has a non-empty body and MAC but an empty key
field — no new ephemeral key is generated for responses. -/
theorem c5_cryptogram_fields (C : ECIESPrims) (ePriv sPriv : Nat)
    (Ps : Nat × Nat)
    (si1 si2 reqNonce respNonce plaintext respPlain envelope : List Nat)
    (hE : ∀ k b, b.length = 16 → (C.encBlock k b).length = 16)
    (hiv : ∀ e n, (C.deriveIv e n).length = 16)
    (hmac32 : ∀ k d, (C.hmacSHA256 k d).length = 32)
    (hpub33 : ∀ a, (C.pubBytes a).length = 33)
    (hPs : p256_decompress (C.pubBytes sPriv) = some Ps) :
    (∃ req : ECIESCryptogram,
      encryptRequest C (C.pubBytes sPriv) si1 si2 ePriv reqNonce plaintext
        = (ErrorCode.Ok, some req) ∧
      req.body ≠ [] ∧ req.mac ≠ [] ∧ req.key ≠ []) ∧
    (∃ resp : ECIESCryptogram,
      encryptResponse C envelope si2 respNonce respPlain
        = (ErrorCode.Ok, some resp) ∧
      resp.body ≠ [] ∧ resp.mac ≠ [] ∧ resp.key = []) := by
  constructor
  · refine ⟨⟨eciesEncryptBody C (C.kdf (C.dh ePriv Ps) si1) reqNonce plaintext,
             C.hmacSHA256 (List.drop 16 (C.kdf (C.dh ePriv Ps) si1))
               (eciesEncryptBody C (C.kdf (C.dh ePriv Ps) si1) reqNonce plaintext
                 ++ si2 ++ C.pubBytes ePriv ++ reqNonce),
             C.pubBytes ePriv, reqNonce⟩, ?_, ?_, ?_, ?_⟩
    · unfold encryptRequest
      rw [hPs]
    · exact eciesEncryptBody_ne_nil C _ _ _ hE hiv
    · exact ne_nil_of_length_eq _ 32 (hmac32 _ _) (by decide)
    · exact ne_nil_of_length_eq _ 33 (hpub33 _) (by decide)
  · refine ⟨⟨eciesEncryptBody C envelope respNonce respPlain,
             C.hmacSHA256 (List.drop 16 envelope)
               (eciesEncryptBody C envelope respNonce respPlain ++ si2 ++ respNonce),
             [], respNonce⟩, rfl, ?_, ?_, rfl⟩
    · exact eciesEncryptBody_ne_nil C _ _ _ hE hiv
    · exact ne_nil_of_length_eq _ 32 (hmac32 _ _) (by decide)

set_option maxRecDepth 1000000 in
/-- Witness for C5 at closed inputs: the toy primitives with empty plaintexts
(the padded body is still non-empty), the P-256 base point as the server
public key, and an arbitrary envelope. -/
theorem c5_cryptogram_fields_witness :
    (∃ req : ECIESCryptogram,
      encryptRequest toyPrims (toyPrims.pubBytes 2) [] [] 1 [] []
        = (ErrorCode.Ok, some req) ∧
      req.body ≠ [] ∧ req.mac ≠ [] ∧ req.key ≠ []) ∧
    (∃ resp : ECIESCryptogram,
      encryptResponse toyPrims (List.replicate 32 0) [] [] []
        = (ErrorCode.Ok, some resp) ∧
      resp.body ≠ [] ∧ resp.mac ≠ [] ∧ resp.key = []) :=
  c5_cryptogram_fields toyPrims 1 2 (p256Gx, p256Gy) [] [] [] [] [] []
    (List.replicate 32 0)
    (fun _ _ h => h) (fun _ _ => rfl) (fun _ _ => rfl) (fun _ => rfl)
    (by decide)

end PowerAuth
